import Mathlib

/-!
Verification of the PhoneInput component
(src/packages/clerk-js/src/ui.retheme/elements/PhoneInput/PhoneInput.tsx).

The component's own logic (the two input handlers, the country-option table,
the selected-option lookup, the rendered input attributes) is embedded
directly from the source. Collaborators that live outside this repository's
source tree (the useFormattedPhoneNumber hook, the static IsoToCountryMap,
the generic Input and Select primitives, and React's effect semantics) are
modelled from the spec; each such definition carries a doc comment saying so.
-/

namespace PhoneInput

/-- Does the character list `s` start with the character list `pat`?
Model of the JavaScript prefix test on strings, used to build the
substring test below. -/
def startsWithList : List Char → List Char → Bool
  | _, [] => true
  | [], _ :: _ => false
  | c :: cs, p :: ps => c == p && startsWithList cs ps

/-- Does the character list `s` contain `pat` as a contiguous run?
Model of JavaScript `String.prototype.includes`. -/
def hasSubList : List Char → List Char → Bool
  | [], pat => pat.isEmpty
  | c :: cs, pat => startsWithList (c :: cs) pat || hasSubList cs pat

/-- JavaScript `s.includes(pat)`: `pat` occurs contiguously in `s`. -/
def jsIncludes (s pat : String) : Bool :=
  hasSubList s.toList pat.toList

/-- JavaScript `s.startsWith(pat)`. -/
def jsStartsWith (s pat : String) : Bool :=
  startsWithList s.toList pat.toList

/-- JavaScript `s.toLowerCase()` (simple per-character lowering). -/
def jsToLower (s : String) : String :=
  ⟨s.toList.map Char.toLower⟩

/-- An entry of the country table: iso code, display name, dial code
(`CountryEntry` from `./countryCodeData`). -/
structure CountryEntry where
  iso : String
  name : String
  code : String
deriving DecidableEq, Repr

/-- A dropdown option as built by `createSelectOption` in the source. -/
structure SelectOption where
  searchTerm : String
  value : String
  country : CountryEntry
deriving DecidableEq, Repr

/-- Embeds `createSelectOption` from the source: the search term and value are the
template string `${country.iso} ${country.name} ${country.code}`. -/
def createSelectOption (c : CountryEntry) : SelectOption :=
  { searchTerm := c.iso ++ " " ++ c.name ++ " " ++ c.code
  , value := c.iso ++ " " ++ c.name ++ " " ++ c.code
  , country := c }

/-- Embeds `countryOptions` from the source:
`[...IsoToCountryMap.values()].map(createSelectOption)`.
The static `IsoToCountryMap` lives in `./countryCodeData`, which is not under
src/; it is modelled from the spec ("a country-data table, ISO → name/dial
code, immutable, loaded once") as the parameter `table`, the list of the
map's values. -/
def countryOptions (table : List CountryEntry) : List SelectOption :=
  table.map createSelectOption

/-- The calls the two input handlers can make into the
useFormattedPhoneNumber hook. -/
inductive PhoneAction where
  | setNumberAndIso (s : String)
  | setNumber (s : String)
  | setIso (iso : String)
deriving DecidableEq, Repr

/-- Embeds `handlePhoneNumberChange` from the source: route the field's new text by
`inputValue.includes('+')`. -/
def handlePhoneNumberChange (inputValue : String) : PhoneAction :=
  if jsIncludes inputValue "+" then PhoneAction.setNumberAndIso inputValue
  else PhoneAction.setNumber inputValue

/-- What a paste event does: whether the browser default was suppressed, and
which hook call was made. -/
structure PasteResult where
  defaultPrevented : Bool
  action : PhoneAction
deriving DecidableEq, Repr

/-- Embeds `handlePaste` from the source: `e.preventDefault()`, then route the
clipboard text by `inputValue.includes('+')`. -/
def handlePaste (clipboardText : String) : PasteResult :=
  { defaultPrevented := true
  , action :=
      if jsIncludes clipboardText "+" then PhoneAction.setNumberAndIso clipboardText
      else PhoneAction.setNumber clipboardText }

/-- Embeds `selectedCountryOption` from the source:
`countryOptions.find(o => o.country.iso === iso) || countryOptions[0]`
(`none` models JavaScript `undefined` on an empty table). -/
def selectedCountryOption (opts : List SelectOption) (iso : String) : Option SelectOption :=
  match opts.find? (fun o => o.country.iso == iso) with
  | some o => some o
  | none => opts.head?

/-! ### Lemmas about the substring model -/

theorem hasSubList_singleton (c : Char) (l : List Char) :
    (hasSubList l [c] = true) ↔ c ∈ l := by
  induction l with
  | nil => simp [hasSubList]
  | cons x xs ih =>
    have hsw : startsWithList xs [] = true := by cases xs <;> rfl
    have h1 : hasSubList (x :: xs) [c] = ((x == c) || hasSubList xs [c]) := by
      show (startsWithList (x :: xs) [c] || hasSubList xs [c]) = ((x == c) || hasSubList xs [c])
      rw [show startsWithList (x :: xs) [c] = (x == c && startsWithList xs []) from rfl,
        hsw, Bool.and_true]
    rw [h1]
    constructor
    · intro h
      rcases Bool.or_eq_true_iff.mp h with h | h
      · exact List.mem_cons.mpr (Or.inl (beq_iff_eq.mp h).symm)
      · exact List.mem_cons.mpr (Or.inr (ih.mp h))
    · intro h
      rcases List.mem_cons.mp h with rfl | h
      · exact Bool.or_eq_true_iff.mpr (Or.inl (beq_self_eq_true c))
      · exact Bool.or_eq_true_iff.mpr (Or.inr (ih.mpr h))

theorem jsIncludes_plus_iff (s : String) :
    (jsIncludes s "+" = true) ↔ '+' ∈ s.toList := by
  have h : "+".toList = ['+'] := rfl
  unfold jsIncludes
  rw [h]
  exact hasSubList_singleton '+' s.toList

/-! ### Claims C1, C4, C6: input routing -/

/-- Claim C1: for every input string delivered by a text-change or paste
event, if the string contains the character `+` the handler calls
`setNumberAndIso` with the string (replacing number and inferred country);
otherwise it calls `setNumber` with the string. -/
theorem route_on_plus_presence (s : String) :
    ('+' ∈ s.toList →
      handlePhoneNumberChange s = PhoneAction.setNumberAndIso s ∧
      (handlePaste s).action = PhoneAction.setNumberAndIso s) ∧
    ('+' ∉ s.toList →
      handlePhoneNumberChange s = PhoneAction.setNumber s ∧
      (handlePaste s).action = PhoneAction.setNumber s) := by
  constructor
  · intro hmem
    have h : jsIncludes s "+" = true := (jsIncludes_plus_iff s).mpr hmem
    constructor <;> simp [handlePhoneNumberChange, handlePaste, h]
  · intro hnot
    have h : jsIncludes s "+" = false := by
      cases hh : jsIncludes s "+" with
      | false => rfl
      | true => exact absurd ((jsIncludes_plus_iff s).mp hh) hnot
    constructor <;> simp [handlePhoneNumberChange, handlePaste, h]

/-- Witness for C1 at the concrete inputs `+30123` (contains `+`) and
`0123` (does not). -/
theorem route_on_plus_presence_witness :
    handlePhoneNumberChange "+30123" = PhoneAction.setNumberAndIso "+30123" ∧
    handlePhoneNumberChange "0123" = PhoneAction.setNumber "0123" :=
  ⟨((route_on_plus_presence "+30123").1 (by decide)).1,
   ((route_on_plus_presence "0123").2 (by decide)).1⟩

/-- Counterexample to claim C4: the input `123+45` contains `+` but does not
start with `+`; the change handler nevertheless replaces the whole number
and country (calls `setNumberAndIso`), so the routing is not decided by a
`+` prefix. -/
theorem route_not_by_prefix_counterexample :
    handlePhoneNumberChange "123+45" = PhoneAction.setNumberAndIso "123+45" ∧
    (handlePaste "123+45").action = PhoneAction.setNumberAndIso "123+45" ∧
    jsStartsWith "123+45" "+" = false := by
  refine ⟨?_, ?_, rfl⟩ <;> decide

/-- Claim C4 as amended: for every pasted or typed input string, the whole
number and country are replaced (`setNumberAndIso`) exactly when the string
contains `+` anywhere, not only as a prefix. -/
theorem route_iff_contains_plus (s : String) :
    (handlePhoneNumberChange s = PhoneAction.setNumberAndIso s ↔
      jsIncludes s "+" = true) ∧
    ((handlePaste s).action = PhoneAction.setNumberAndIso s ↔
      jsIncludes s "+" = true) := by
  cases h : jsIncludes s "+" <;>
    simp [handlePhoneNumberChange, handlePaste, h]

/-- Witness for the amended C4 at the concrete input `123+45`. -/
theorem route_iff_contains_plus_witness :
    handlePhoneNumberChange "123+45" = PhoneAction.setNumberAndIso "123+45" :=
  ((route_iff_contains_plus "123+45").1).mpr (by decide)

/-! ### The component as a state machine -/

/-- The component-local transient state: current ISO selection, current
local number, whether the number field holds keyboard focus, and the option
list the component references. The first two model the state of the
useFormattedPhoneNumber hook (not under src/), following the spec's data
model ("current ISO selection, current local number"). -/
structure CompState where
  iso : String
  number : String
  focusOnNumberInput : Bool
  options : List SelectOption
deriving DecidableEq, Repr

/-- The UI events the component handles. -/
inductive PhoneEvent where
  | textChange (s : String)
  | paste (s : String)
  | selectCountry (opt : SelectOption)
deriving DecidableEq, Repr

/-- Modelled from the spec: the effect of the three setters of the
useFormattedPhoneNumber hook, which is not under src/. `setNumber` replaces
only the local number, `setIso` replaces only the ISO selection, and
`setNumberAndIso` replaces both the number and the inferred country; the
hook's parsing of a full international number is kept abstract as the
functions `inferIso` and `numberOf`. -/
def applyAction (inferIso numberOf : String → String) (st : CompState) :
    PhoneAction → CompState
  | PhoneAction.setNumberAndIso s => { st with iso := inferIso s, number := numberOf s }
  | PhoneAction.setNumber s => { st with number := s }
  | PhoneAction.setIso i => { st with iso := i }

/-- One step of the component: text change and paste run their handlers from
the source; choosing a country runs the Select onChange from the source
(`setIso(option.country.iso)` followed by `phoneInputRef.current?.focus()`). -/
def step (inferIso numberOf : String → String) (st : CompState) :
    PhoneEvent → CompState
  | PhoneEvent.textChange s => applyAction inferIso numberOf st (handlePhoneNumberChange s)
  | PhoneEvent.paste s => applyAction inferIso numberOf st (handlePaste s).action
  | PhoneEvent.selectCountry opt =>
      { applyAction inferIso numberOf st (PhoneAction.setIso opt.country.iso) with
          focusOnNumberInput := true }

/-- The state at mount: the option list is the module-level `countryOptions`
computed from the static table; initial ISO and number come from the hook's
initialisation, kept abstract. -/
def initState (table : List CountryEntry) (iso0 number0 : String) : CompState :=
  { iso := iso0
  , number := number0
  , focusOnNumberInput := false
  , options := countryOptions table }

/-- Dial code shown for the current ISO: the `code` of the selected country
option (empty on an empty table). -/
def dialCode (opts : List SelectOption) (iso : String) : String :=
  match selectedCountryOption opts iso with
  | some o => o.country.code
  | none => ""

/-- Modelled from the spec: `numberWithCode` of the useFormattedPhoneNumber
hook (not under src/), the combined "dial code + number" string. -/
def numberWithCode (st : CompState) : String :=
  "+" ++ dialCode st.options st.iso ++ st.number

/-- The `target` of the synthetic change event. -/
structure EventTarget where
  value : String
deriving DecidableEq, Repr

/-- The synthetic change event the component hands to its onChange prop. -/
structure ChangeEvent where
  target : EventTarget
deriving DecidableEq, Repr

/-- Embeds `callOnChangeProp` from the source:
`onChangeProp?.({ target: { value: numberWithCode } })`. -/
def callOnChangeProp (nwc : String) : ChangeEvent :=
  { target := { value := nwc } }

/-- Modelled from the spec: React's `useEffect(callOnChangeProp,
[numberWithCode])` (the effect runtime is not under src/) runs the callback
exactly once after a render in which `numberWithCode` changed, and not
otherwise. -/
def effectEmissions (prevNwc newNwc : String) : List ChangeEvent :=
  if newNwc = prevNwc then [] else [callOnChangeProp newNwc]

/-- Modelled from the spec: `formattedNumber` of the useFormattedPhoneNumber
hook (not under src/), the display formatting of the current local number,
kept abstract as `fmt`. -/
def formattedNumber (fmt : String → String) (st : CompState) : String :=
  fmt st.number

/-- The attributes the component puts on the number input element. -/
structure RenderedInput where
  value : String
  maxLength : Nat
  typeAttr : String
deriving DecidableEq, Repr

/-- The number input as rendered by the source:
`value={formattedNumber}`, `maxLength={25}`, `type='tel'`. -/
def renderPhoneInput (fmt : String → String) (st : CompState) : RenderedInput :=
  { value := formattedNumber fmt st
  , maxLength := 25
  , typeAttr := "tel" }

/-- Modelled from the spec: the generic form-input rendering primitive
(`Input`, not under src/) enforces its `maxLength` attribute on typed edits,
delivering at most `m` characters to the change handler. -/
def typedEditDelivered (m : Nat) (candidate : String) : String :=
  if candidate.length ≤ m then candidate else ⟨candidate.toList.take m⟩

/-- A two-entry country table used to instantiate theorems at concrete
inputs. -/
def demoTable : List CountryEntry :=
  [ { iso := "us", name := "United States", code := "1" }
  , { iso := "de", name := "Germany", code := "49" } ]

/-! ### Claims C5, C6, C7: state transitions and invariants -/

/-- Claim C5: choosing a country option sets the current ISO to the option's
country iso, moves keyboard focus to the number input, and leaves the local
number unchanged. -/
theorem select_country_sets_iso_and_focus (inferIso numberOf : String → String)
    (st : CompState) (opt : SelectOption) :
    (step inferIso numberOf st (PhoneEvent.selectCountry opt)).iso = opt.country.iso ∧
    (step inferIso numberOf st (PhoneEvent.selectCountry opt)).focusOnNumberInput = true ∧
    (step inferIso numberOf st (PhoneEvent.selectCountry opt)).number = st.number :=
  ⟨rfl, rfl, rfl⟩

/-- Claim C6: a paste event and a text-change event carrying the same input
string make the same hook call and produce the same state transition. -/
theorem paste_equals_text_change (inferIso numberOf : String → String)
    (st : CompState) (s : String) :
    (handlePaste s).action = handlePhoneNumberChange s ∧
    step inferIso numberOf st (PhoneEvent.paste s) =
      step inferIso numberOf st (PhoneEvent.textChange s) := by
  have hact : (handlePaste s).action = handlePhoneNumberChange s := by
    simp [handlePaste, handlePhoneNumberChange]
  exact ⟨hact, by simp [step, hact]⟩

theorem applyAction_options (inferIso numberOf : String → String)
    (st : CompState) (a : PhoneAction) :
    (applyAction inferIso numberOf st a).options = st.options := by
  cases a <;> rfl

theorem step_options (inferIso numberOf : String → String)
    (st : CompState) (e : PhoneEvent) :
    (step inferIso numberOf st e).options = st.options := by
  cases e <;> simp [step, applyAction_options]

/-- Claim C7: the option list is computed once from the static table; no
sequence of component events (text change, paste, country selection) ever
changes it, so after any run it still equals `countryOptions table`. -/
theorem countryOptions_invariant (inferIso numberOf : String → String)
    (table : List CountryEntry) (iso0 number0 : String) (evs : List PhoneEvent) :
    (evs.foldl (step inferIso numberOf) (initState table iso0 number0)).options =
      countryOptions table := by
  suffices h : ∀ st : CompState, st.options = countryOptions table →
      (evs.foldl (step inferIso numberOf) st).options = countryOptions table from
    h _ rfl
  induction evs with
  | nil => intro st h; exact h
  | cons e es ih =>
    intro st h
    exact ih _ (by rw [step_options]; exact h)

/-! ### Claim C3: the synthetic change event -/

/-- Claim C3: whenever the combined number changes, the component emits
exactly one synthetic change event, and its `target.value` is the combined
dial-code-plus-number string `numberWithCode`. -/
theorem change_event_on_numberWithCode (st st' : CompState)
    (h : numberWithCode st' ≠ numberWithCode st) :
    effectEmissions (numberWithCode st) (numberWithCode st') =
      [callOnChangeProp (numberWithCode st')] ∧
    (callOnChangeProp (numberWithCode st')).target.value = numberWithCode st' :=
  ⟨by simp [effectEmissions, h], rfl⟩

/-- Witness for C3: typing a digit in the demo state changes the combined
number from `+1` to `+15` and one event carrying `+15` is emitted. -/
theorem change_event_on_numberWithCode_witness :
    effectEmissions (numberWithCode (initState demoTable "us" ""))
        (numberWithCode { initState demoTable "us" "" with number := "5" }) =
      [callOnChangeProp "+15"] :=
  (change_event_on_numberWithCode (initState demoTable "us" "")
    { initState demoTable "us" "" with number := "5" } (by decide)).1

/-! ### Claims C8, C10: the rendered input -/

/-- Claim C8: the number input carries `maxLength` 25, so every typed edit
delivers a string of at most 25 characters to the change handler. -/
theorem typed_edit_at_most_25 (fmt : String → String) (st : CompState)
    (candidate : String) :
    (typedEditDelivered (renderPhoneInput fmt st).maxLength candidate).length ≤ 25 := by
  have hm : (renderPhoneInput fmt st).maxLength = 25 := rfl
  rw [hm]
  unfold typedEditDelivered
  split
  · assumption
  · show (String.mk (candidate.toList.take 25)).length ≤ 25
    have h : (String.mk (candidate.toList.take 25)).length =
        (candidate.toList.take 25).length := rfl
    rw [h, List.length_take]
    exact min_le_left _ _

/-- Claim C10: the number field is controlled: after every event the
rendered field value is `formattedNumber` of the new state, and the paste
handler suppresses the browser default before routing the clipboard text. -/
theorem controlled_value_and_preventDefault (inferIso numberOf fmt : String → String)
    (st : CompState) (e : PhoneEvent) (s : String) :
    (renderPhoneInput fmt (step inferIso numberOf st e)).value =
      formattedNumber fmt (step inferIso numberOf st e) ∧
    (handlePaste s).defaultPrevented = true :=
  ⟨rfl, rfl⟩

/-! ### Claim C2: selected option lookup and fallback -/

theorem find?_countryOptions (table : List CountryEntry) (iso : String) :
    (countryOptions table).find? (fun o => o.country.iso == iso) =
      (table.find? (fun c => c.iso == iso)).map createSelectOption := by
  unfold countryOptions
  rw [List.find?_map]
  rfl

theorem find?_iso_of_nodup (table : List CountryEntry) (iso : String)
    (hnd : (table.map CountryEntry.iso).Nodup)
    (e : CountryEntry) (he : e ∈ table) (heq : e.iso = iso) :
    table.find? (fun c => c.iso == iso) = some e := by
  induction table with
  | nil => cases he
  | cons c ts ih =>
    rw [List.map_cons, List.nodup_cons] at hnd
    by_cases hc : c.iso = iso
    · rw [List.find?_cons_of_pos _ (by simpa using hc)]
      rcases List.mem_cons.mp he with rfl | hmem
      · rfl
      · exact absurd (List.mem_map.mpr ⟨e, hmem, heq.trans hc.symm⟩) hnd.1
    · rcases List.mem_cons.mp he with rfl | hmem
      · exact absurd heq hc
      · rw [List.find?_cons_of_neg _ (by simpa using hc)]
        exact ih hnd.2 hmem

/-- Claim C2: the selected country option is the table entry whose iso
equals the current ISO (the table's isos being pairwise distinct), and when
no entry matches, the component silently falls back to the first entry of
the table instead of producing an error state. -/
theorem selected_option_lookup_or_fallback (table : List CountryEntry) (iso : String)
    (hne : table ≠ [])
    (hnd : (table.map CountryEntry.iso).Nodup) :
    (∀ e ∈ table, e.iso = iso →
      selectedCountryOption (countryOptions table) iso = some (createSelectOption e)) ∧
    ((∀ e ∈ table, e.iso ≠ iso) →
      selectedCountryOption (countryOptions table) iso =
        some (createSelectOption (table.head hne))) := by
  constructor
  · intro e he heq
    unfold selectedCountryOption
    rw [find?_countryOptions, find?_iso_of_nodup table iso hnd e he heq]
    rfl
  · intro hnone
    have hfind : table.find? (fun c => c.iso == iso) = none :=
      List.find?_eq_none.mpr (fun e he => by simpa using hnone e he)
    unfold selectedCountryOption
    rw [find?_countryOptions, hfind]
    show (countryOptions table).head? = some (createSelectOption (table.head hne))
    unfold countryOptions
    rw [List.head?_map, List.head?_eq_head hne]
    rfl

/-- Witness for C2 on the demo table: looking up `de` yields the Germany
entry; looking up the unknown iso `zz` falls back to the first entry. -/
theorem selected_option_lookup_witness :
    selectedCountryOption (countryOptions demoTable) "de" =
      some (createSelectOption { iso := "de", name := "Germany", code := "49" }) ∧
    selectedCountryOption (countryOptions demoTable) "zz" =
      some (createSelectOption { iso := "us", name := "United States", code := "1" }) :=
  ⟨(selected_option_lookup_or_fallback demoTable "de" (by decide) (by decide)).1
    { iso := "de", name := "Germany", code := "49" } (by decide) rfl,
   (selected_option_lookup_or_fallback demoTable "zz" (by decide) (by decide)).2
    (by decide)⟩

/-! ### Claim C9: dropdown search -/

/-- The `comparator` passed to the Select in the source:
`option.searchTerm.toLowerCase().includes(term.toLowerCase())`. -/
def comparator (term : String) (opt : SelectOption) : Bool :=
  jsIncludes (jsToLower opt.searchTerm) (jsToLower term)

/-- Modelled from the spec: the searchable-select primitive (not under src/)
shows exactly the options accepted by the comparator it is given. -/
def shownOptions (term : String) (opts : List SelectOption) : List SelectOption :=
  opts.filter (comparator term)

theorem startsWithList_nil_pat (l : List Char) : startsWithList l [] = true := by
  cases l <;> rfl

theorem hasSubList_nil_pat (l : List Char) : hasSubList l [] = true := by
  cases l with
  | nil => rfl
  | cons c cs =>
    show (startsWithList (c :: cs) [] || hasSubList cs []) = true
    rw [startsWithList_nil_pat, Bool.true_or]

theorem startsWithList_append (pat s t : List Char)
    (h : startsWithList s pat = true) : startsWithList (s ++ t) pat = true := by
  induction pat generalizing s with
  | nil => exact startsWithList_nil_pat _
  | cons p ps ih =>
    cases s with
    | nil => exact absurd h (by simp [startsWithList])
    | cons c cs =>
      rw [show startsWithList (c :: cs) (p :: ps) = (c == p && startsWithList cs ps)
        from rfl] at h
      obtain ⟨h1, h2⟩ := Bool.and_eq_true_iff.mp h
      rw [List.cons_append,
        show startsWithList (c :: (cs ++ t)) (p :: ps) =
          (c == p && startsWithList (cs ++ t) ps) from rfl,
        h1, Bool.true_and]
      exact ih cs h2

theorem hasSubList_append_right (pat s t : List Char)
    (h : hasSubList s pat = true) : hasSubList (s ++ t) pat = true := by
  induction s with
  | nil =>
    have hp : pat = [] := List.isEmpty_iff.mp h
    subst hp
    exact hasSubList_nil_pat _
  | cons c cs ih =>
    rw [show hasSubList (c :: cs) pat =
      (startsWithList (c :: cs) pat || hasSubList cs pat) from rfl] at h
    rw [List.cons_append,
      show hasSubList (c :: (cs ++ t)) pat =
        (startsWithList (c :: (cs ++ t)) pat || hasSubList (cs ++ t) pat) from rfl]
    rcases Bool.or_eq_true_iff.mp h with h1 | h2
    · have hs := startsWithList_append pat (c :: cs) t h1
      rw [List.cons_append] at hs
      exact Bool.or_eq_true_iff.mpr (Or.inl hs)
    · exact Bool.or_eq_true_iff.mpr (Or.inr (ih h2))

theorem hasSubList_append_left (pat s t : List Char)
    (h : hasSubList t pat = true) : hasSubList (s ++ t) pat = true := by
  induction s with
  | nil => simpa using h
  | cons c cs ih =>
    rw [List.cons_append,
      show hasSubList (c :: (cs ++ t)) pat =
        (startsWithList (c :: (cs ++ t)) pat || hasSubList (cs ++ t) pat) from rfl]
    exact Bool.or_eq_true_iff.mpr (Or.inr ih)

theorem jsToLower_toList_append (a b : String) :
    (jsToLower (a ++ b)).toList = (jsToLower a).toList ++ (jsToLower b).toList := by
  show (a ++ b).toList.map Char.toLower =
    a.toList.map Char.toLower ++ b.toList.map Char.toLower
  rw [show (a ++ b).toList = a.toList ++ b.toList from rfl, List.map_append]

theorem searchTerm_of_mem (table : List CountryEntry) (o : SelectOption)
    (h : o ∈ countryOptions table) :
    o.searchTerm = o.country.iso ++ " " ++ o.country.name ++ " " ++ o.country.code := by
  rcases List.mem_map.mp h with ⟨c, _, rfl⟩
  rfl

/-- Claim C9: an option of the country dropdown is shown for a search term
exactly when the lowered term occurs in the lowered concatenation
"iso name code" of the option's country; in particular a term occurring in
the iso code alone, the country name alone, or the dial code alone makes the
option shown. -/
theorem shown_iff_search_matches (term : String) (table : List CountryEntry)
    (o : SelectOption) :
    (o ∈ shownOptions term (countryOptions table) ↔
      o ∈ countryOptions table ∧
        hasSubList
          (jsToLower (o.country.iso ++ " " ++ o.country.name ++ " " ++ o.country.code)).toList
          (jsToLower term).toList = true) ∧
    (∀ p ∈ countryOptions table,
      hasSubList (jsToLower p.country.iso).toList (jsToLower term).toList = true →
        p ∈ shownOptions term (countryOptions table)) ∧
    (∀ p ∈ countryOptions table,
      hasSubList (jsToLower p.country.name).toList (jsToLower term).toList = true →
        p ∈ shownOptions term (countryOptions table)) ∧
    (∀ p ∈ countryOptions table,
      hasSubList (jsToLower p.country.code).toList (jsToLower term).toList = true →
        p ∈ shownOptions term (countryOptions table)) := by
  have key : ∀ p ∈ countryOptions table,
      comparator term p =
        hasSubList
          (jsToLower (p.country.iso ++ " " ++ p.country.name ++ " " ++ p.country.code)).toList
          (jsToLower term).toList := by
    intro p hp
    unfold comparator jsIncludes
    rw [searchTerm_of_mem table p hp]
  refine ⟨?_, ?_, ?_, ?_⟩
  · constructor
    · intro h
      have hm := List.mem_filter.mp h
      exact ⟨hm.1, by rw [← key o hm.1]; exact hm.2⟩
    · rintro ⟨hmem, hsub⟩
      exact List.mem_filter.mpr ⟨hmem, by rw [key o hmem]; exact hsub⟩
  · intro p hp hsub
    refine List.mem_filter.mpr ⟨hp, ?_⟩
    rw [key p hp]
    simp only [jsToLower_toList_append]
    exact hasSubList_append_right _ _ _ (hasSubList_append_right _ _ _
      (hasSubList_append_right _ _ _ (hasSubList_append_right _ _ _ hsub)))
  · intro p hp hsub
    refine List.mem_filter.mpr ⟨hp, ?_⟩
    rw [key p hp]
    simp only [jsToLower_toList_append]
    exact hasSubList_append_right _ _ _ (hasSubList_append_right _ _ _
      (hasSubList_append_left _ _ _ hsub))
  · intro p hp hsub
    refine List.mem_filter.mpr ⟨hp, ?_⟩
    rw [key p hp]
    simp only [jsToLower_toList_append]
    exact hasSubList_append_left _ _ _ hsub

/-- Witness for C9: on the demo table, the term `GERM` shows the Germany
option (case-insensitive match on the country name). -/
theorem shown_iff_search_matches_witness :
    createSelectOption { iso := "de", name := "Germany", code := "49" } ∈
      shownOptions "GERM" (countryOptions demoTable) :=
  ((shown_iff_search_matches "GERM" demoTable
      (createSelectOption { iso := "de", name := "Germany", code := "49" })).1).mpr
    ⟨by decide, by decide⟩

end PhoneInput
